import Mathlib

/-!
Shallow embedding of the Request Control background script
(`src/background.js`): the per-tab record store, the redirect-chain
reconciler (`resetRecords`), and rule-listener installation
(`addRuleListeners`, `init`, `initOnChange`), together with theorems
about their behaviour.
-/

namespace RequestControl

open List

/-- A resolved-request record as built by `requestControlListener` and stored
by `addRecord` (`background.js` lines 89-96).  The `target` field mirrors
`request.redirectUrl`, which in JavaScript is a string or `undefined`; we
model it as `Option String` (`none` = `undefined`).  The `rule` field is the
opaque rule reference, modelled by an identifier. -/
structure Record where
  tabId : Nat
  type : String
  url : String
  target : Option String
  timestamp : Nat
  rule : Nat
deriving DecidableEq, Repr, Inhabited

/-- The per-tab record store: `records = new Map()` mapping a tab id to the
ordered (oldest-first) sequence of records, `none` when the map has no entry
for the tab. -/
def Store : Type := Nat → Option (List Record)

/-- The store at startup: `new Map()` holds no entries. -/
def emptyStore : Store := fun _ => none

/-- JavaScript truthiness of the `target` field: `undefined` and the empty
string are falsy, every other string is truthy. -/
def targetTruthy : Option String → Bool
  | none => false
  | some s => !(s == "")

/-- `records.delete(tabId)` — the `removeRecords` handler. -/
def removeRecords (store : Store) (tabId : Nat) : Store :=
  fun t => if t = tabId then none else store t

/-- `addRecord(record)`: fetch the tab's sequence, creating it lazily when
absent, push the record, and return the new length
(`background.js` lines 119-127). -/
def addRecord (store : Store) (r : Record) : Nat × Store :=
  let recordsForTab := (store r.tabId).getD []
  let updated := recordsForTab ++ [r]
  (updated.length, fun t => if t = r.tabId then some updated else store t)

/-- The pass-1 stop condition of `resetRecords` (lines 139-140):
`lastRecord.target === details.url || isServerRedirect && lastRecord.target`. -/
def pass1Match (isServerRedirect : Bool) (url : String) (r : Record) : Bool :=
  r.target == some url || (isServerRedirect && targetTruthy r.target)

/-- Pass 1 of `resetRecords` (lines 136-145): pop up to `fuel` records from
the newest end (the input list is newest-first), stopping at the first record
satisfying `pass1Match`.  Returns `(anchor, lastRecord, remaining)` where
`anchor` is the adopted record (pushed into `keep`), `lastRecord` is the last
record popped (even when it did not match), and `remaining` is the rest of
the sequence, still newest-first.  Called with `fuel = 5`. -/
def pass1 (isServerRedirect : Bool) (url : String) :
    Nat → List Record → Option Record → Option Record × Option Record × List Record
  | 0, recs, last => (none, last, recs)
  | _ + 1, [], last => (none, last, [])
  | fuel + 1, r :: rest, _ =>
    if pass1Match isServerRedirect url r then (some r, some r, rest)
    else pass1 isServerRedirect url fuel rest (some r)

/-- The pass-2 chain condition of `resetRecords` (line 150):
`record.target && record.target === lastRecord.url`.  The `record.target &&`
guard short-circuits, so `lastRecord.url` is only read when the target is
truthy; with an absent `lastRecord` the truthy case is unreachable in
`resetRecords`, and we render it as no match. -/
def pass2Match (last : Option Record) (r : Record) : Bool :=
  targetTruthy r.target &&
    (match last with
     | some l => r.target == some l.url
     | none => false)

/-- Pass 2 of `resetRecords` (lines 147-155): pop up to `fuel` further
records; each one whose target equals the current `lastRecord.url` is
prepended (`unshift`) to `keep` and becomes the new `lastRecord`, the others
are discarded.  Returns `(keep, remaining)`.  Called with `fuel = 5`. -/
def pass2 : Nat → List Record → Option Record → List Record → List Record × List Record
  | 0, recs, _, keep => (keep, recs)
  | _ + 1, [], _, keep => (keep, [])
  | fuel + 1, r :: rest, last, keep =>
    if pass2Match last r then pass2 fuel rest (some r) (r :: keep)
    else pass2 fuel rest last keep

/-- The payload of a `webNavigation.onCommitted` event as consumed by
`resetRecords`. -/
structure NavDetails where
  tabId : Nat
  frameId : Nat
  url : String
  transitionQualifiers : List String
deriving Repr

/-- Calls made on the notifier port. -/
inductive Notification where
  | enabledState
  | disabledState
  | notify (tabId : Nat) (rule : Nat) (count : Nat)
  | clear (tabId : Nat)
deriving DecidableEq, Repr

/-- Placeholder record used to eliminate `keep[keep.length - 1]`; only read
on a non-empty `keep`, so the default value is never returned. -/
def dummyRecord : Record := default

/-- The two-pass backward walk of `resetRecords` (lines 133-155) on one
tab's sequence (oldest-first), producing the `keep` list (oldest-first).
The destructive `pop` walk is rendered as a walk over the reversed
(newest-first) sequence. -/
def reconcile (isServerRedirect : Bool) (url : String)
    (tabRecords : List Record) : List Record :=
  let p1 := pass1 isServerRedirect url 5 tabRecords.reverse none
  (pass2 5 p1.2.2 p1.2.1 p1.1.toList).1

/-- `resetRecords(details)` (lines 129-165): on a top-level
(`frameId === 0`) commit for a tab with stored records, run the two-pass
walk; if `keep` is non-empty replace the tab's sequence with it and notify
with the newest kept record's rule and the kept count, otherwise remove the
tab's records and clear.  Returns the updated store and the notifier call
made, if any. -/
def resetRecords (store : Store) (details : NavDetails) :
    Store × Option Notification :=
  if details.frameId = 0 ∧ (store details.tabId).isSome = true then
    let isServerRedirect := details.transitionQualifiers.contains "server_redirect"
    match reconcile isServerRedirect details.url ((store details.tabId).getD []) with
    | [] => (removeRecords store details.tabId, some (.clear details.tabId))
    | k :: ks =>
      (fun t => if t = details.tabId then some (k :: ks) else store t,
        some (.notify details.tabId ((k :: ks).getLastD dummyRecord).rule
          (k :: ks).length))
  else (store, none)

/-- The slice of a user rule that `addRuleListeners` looks at: the `active`
flag, an identifier, and whether `createRule`/`createMatchPatterns` succeed
on it (`compiles = false` models the `catch` branch being taken). -/
structure RuleData where
  id : Nat
  active : Bool
  compiles : Bool
deriving DecidableEq, Repr

/-- The listener wiring produced by `addRuleListeners`: the per-rule
`onBeforeRequest` hooks (by rule id, in installation order), the number of
`notifier.error` reports, and whether the catch-all blocking
`requestControlListener` hook was installed. -/
structure ListenerInstall where
  perRule : List Nat
  errors : Nat
  catchAll : Bool
deriving DecidableEq, Repr

/-- One iteration of the rule loop in `addRuleListeners` (lines 63-82):
inactive rules are skipped, a compiling rule gets a listener installed and
pushed, a non-compiling rule is reported via `notifier.error`. -/
def installRule (acc : ListenerInstall) (data : RuleData) : ListenerInstall :=
  if !data.active then acc
  else if data.compiles then { acc with perRule := acc.perRule ++ [data.id] }
  else { acc with errors := acc.errors + 1 }

/-- `addRuleListeners(rules)` (lines 59-85): with `rules` null/undefined
(`none`) return early, installing nothing; otherwise run the per-rule loop
and then install the single catch-all blocking listener. -/
def addRuleListeners : Option (List RuleData) → ListenerInstall
  | none => ⟨[], 0, false⟩
  | some rules =>
    let s := rules.foldl installRule ⟨[], 0, false⟩
    { s with catchAll := true }

/-- A configuration snapshot `{disabled, rules}` as read from
`browser.storage.local`. -/
structure Options where
  disabled : Bool
  rules : Option (List RuleData)

/-- The background script's mutable state relevant to `init`: the installed
per-rule hooks and catch-all hook, the record store, and whether the
navigation-commit, tab-removed and message listeners are attached. -/
structure BackgroundState where
  perRuleHooks : List Nat
  catchAllHook : Bool
  records : Store
  navListener : Bool
  tabListener : Bool
  msgListener : Bool

/-- The state at extension startup: nothing installed, empty store. -/
def freshState : BackgroundState :=
  ⟨[], false, emptyStore, false, false, false⟩

/-- `init(options)` (lines 33-49): when disabled, report the disabled state,
clear the record store and detach the navigation/tab/message listeners
(leaving whatever request hooks exist untouched); when enabled, report the
enabled state, install listeners for the rules and attach the
navigation/tab/message listeners. -/
def init (options : Options) (s : BackgroundState) :
    BackgroundState × Notification :=
  if options.disabled then
    ({ s with records := emptyStore,
              navListener := false, tabListener := false, msgListener := false },
      Notification.disabledState)
  else
    let installed := addRuleListeners options.rules
    ({ s with perRuleHooks := s.perRuleHooks ++ installed.perRule,
              catchAllHook := s.catchAllHook || installed.catchAll,
              navListener := true, tabListener := true, msgListener := true },
      Notification.enabledState)

/-- `initOnChange()` (lines 51-57): pop and remove every per-rule listener,
remove the catch-all listener, then re-run `init` on the freshly loaded
options. -/
def initOnChange (options : Options) (s : BackgroundState) :
    BackgroundState × Notification :=
  init options { s with perRuleHooks := [], catchAllHook := false }

/-- The projection of a record the store invariant speaks about. -/
def recordKey (r : Record) : String × Option String × Nat :=
  (r.url, r.target, r.timestamp)

/-- No two records of the list share `(url, target, timestamp)`. -/
def keyNodup (l : List Record) : Prop :=
  l.Pairwise (fun a b => recordKey a ≠ recordKey b)

/-- The store-mutating events the background script handles: a resolved
request appending a record, a top-level navigation commit, and a tab
removal. -/
inductive Op where
  | append (r : Record)
  | navCommit (d : NavDetails)
  | tabRemoved (t : Nat)

/-- The effect of one event on the record store. -/
def applyOp (store : Store) : Op → Store
  | .append r => (addRecord store r).2
  | .navCommit d => (resetRecords store d).1
  | .tabRemoved t => removeRecords store t

/-- Run a sequence of events against a store. -/
def runOps (store : Store) (ops : List Op) : Store :=
  ops.foldl applyOp store

/-- The records appended for tab `t` by a sequence of events, in order. -/
def appendsFor (t : Nat) (ops : List Op) : List Record :=
  ops.filterMap fun op =>
    match op with
    | .append r => if r.tabId = t then some r else none
    | _ => none

/-- Repeated `addRecord` calls, collecting each call's returned count. -/
def appendAll (store : Store) : List Record → List Nat × Store
  | [] => ([], store)
  | r :: rs =>
    let p := addRecord store r
    let q := appendAll p.2 rs
    (p.1 :: q.1, q.2)

/-! ### Structural lemmas about the two passes -/

theorem pass1_anchor_append_sublist (isServerRedirect : Bool) (url : String)
    (fuel : Nat) : ∀ (recs : List Record) (last : Option Record),
      (pass1 isServerRedirect url fuel recs last).1.toList ++
        (pass1 isServerRedirect url fuel recs last).2.2 <+ recs := by
  induction fuel with
  | zero => intro recs last; simp [pass1]
  | succ n ih =>
    intro recs last
    cases recs with
    | nil => simp [pass1]
    | cons r rest =>
      by_cases h : pass1Match isServerRedirect url r
      · simp [pass1, h]
      · simpa [pass1, h] using (ih rest (some r)).cons r

theorem pass2_keep_reverse_sublist (fuel : Nat) :
    ∀ (recs : List Record) (last : Option Record) (keep : List Record),
      (pass2 fuel recs last keep).1.reverse <+ keep.reverse ++ recs := by
  induction fuel with
  | zero =>
    intro recs last keep
    simp [pass2]
  | succ n ih =>
    intro recs last keep
    cases recs with
    | nil => simp [pass2]
    | cons r rest =>
      by_cases h : pass2Match last r
      · simpa [pass2, h, List.append_assoc] using ih rest (some r) (r :: keep)
      · have hrec : (pass2 (n + 1) (r :: rest) last keep).1.reverse <+
            keep.reverse ++ rest := by
          simpa [pass2, h] using ih rest last keep
        exact hrec.trans ((List.sublist_cons_self r rest).append_left keep.reverse)

theorem pass2_keep_length (fuel : Nat) :
    ∀ (recs : List Record) (last : Option Record) (keep : List Record),
      (pass2 fuel recs last keep).1.length ≤ keep.length + fuel := by
  induction fuel with
  | zero => intro recs last keep; simp [pass2]
  | succ n ih =>
    intro recs last keep
    cases recs with
    | nil => simp [pass2]
    | cons r rest =>
      by_cases h : pass2Match last r
      · have := ih rest (some r) (r :: keep)
        simp [pass2, h] at this ⊢
        omega
      · have := ih rest last keep
        simp [pass2, h] at this ⊢
        omega

theorem pass1_rest_length (isServerRedirect : Bool) (url : String)
    (fuel : Nat) : ∀ (recs : List Record) (last : Option Record),
      recs.length ≤ (pass1 isServerRedirect url fuel recs last).2.2.length + fuel := by
  induction fuel with
  | zero => intro recs last; simp [pass1]
  | succ n ih =>
    intro recs last
    cases recs with
    | nil => simp [pass1]
    | cons r rest =>
      by_cases h : pass1Match isServerRedirect url r
      · simp [pass1, h]
      · have := ih rest (some r)
        simp [pass1, h]
        omega

theorem pass2_rest_length (fuel : Nat) :
    ∀ (recs : List Record) (last : Option Record) (keep : List Record),
      recs.length ≤ (pass2 fuel recs last keep).2.length + fuel := by
  induction fuel with
  | zero => intro recs last keep; simp [pass2]
  | succ n ih =>
    intro recs last keep
    cases recs with
    | nil => simp [pass2]
    | cons r rest =>
      by_cases h : pass2Match last r
      · have := ih rest (some r) (r :: keep)
        simp [pass2, h]
        omega
      · have := ih rest last keep
        simp [pass2, h]
        omega

/-- What `resetRecords` keeps is always a sublist (in order) of the tab's
original sequence: pass 1 contributes at most the anchor, pass 2 only
records from further back, in their original order. -/
theorem reconcile_sublist (isServerRedirect : Bool) (url : String)
    (tabRecords : List Record) :
    reconcile isServerRedirect url tabRecords <+ tabRecords := by
  simp only [reconcile]
  set p1 := pass1 isServerRedirect url 5 tabRecords.reverse none with hp1
  have h1 : p1.1.toList ++ p1.2.2 <+ tabRecords.reverse := by
    rw [hp1]
    exact pass1_anchor_append_sublist isServerRedirect url 5 tabRecords.reverse none
  have h2 := pass2_keep_reverse_sublist 5 p1.2.2 p1.2.1 p1.1.toList
  have htl : p1.1.toList.reverse = p1.1.toList := by
    cases p1.1 <;> simp
  rw [htl] at h2
  simpa using (h2.trans h1).reverse

/-- Pass 1 adds at most one record to `keep` and pass 2 at most five, so the
kept chain never exceeds six records. -/
theorem reconcile_length_le (isServerRedirect : Bool) (url : String)
    (tabRecords : List Record) :
    (reconcile isServerRedirect url tabRecords).length ≤ 6 := by
  simp only [reconcile]
  set p1 := pass1 isServerRedirect url 5 tabRecords.reverse none with hp1
  have h := pass2_keep_length 5 p1.2.2 p1.2.1 p1.1.toList
  have htl : p1.1.toList.length ≤ 1 := by
    cases p1.1 <;> simp
  omega

/-- `resetRecords` on a top-level commit for a tracked tab whose walk keeps
nothing: the tab's records are removed and a clear is issued. -/
theorem resetRecords_clear_eq (store : Store) (d : NavDetails)
    (hf : d.frameId = 0) (hs : (store d.tabId).isSome = true)
    (hk : reconcile (d.transitionQualifiers.contains "server_redirect") d.url
      ((store d.tabId).getD []) = []) :
    resetRecords store d =
      (removeRecords store d.tabId, some (Notification.clear d.tabId)) := by
  simp only [resetRecords]
  rw [if_pos ⟨hf, hs⟩, hk]

/-- `resetRecords` on a top-level commit for a tracked tab whose walk keeps a
non-empty chain: the tab's sequence is replaced by the chain and a notify is
issued with the newest kept record's rule and the kept count. -/
theorem resetRecords_keep_eq (store : Store) (d : NavDetails)
    (k : Record) (ks : List Record)
    (hf : d.frameId = 0) (hs : (store d.tabId).isSome = true)
    (hk : reconcile (d.transitionQualifiers.contains "server_redirect") d.url
      ((store d.tabId).getD []) = k :: ks) :
    resetRecords store d =
      (fun t => if t = d.tabId then some (k :: ks) else store t,
        some (Notification.notify d.tabId ((k :: ks).getLastD dummyRecord).rule
          (k :: ks).length)) := by
  simp only [resetRecords]
  rw [if_pos ⟨hf, hs⟩, hk]

/-- The rule loop of `addRuleListeners`, characterised: hooks are installed
exactly for the active rules that compile, in order, and each active rule
that fails to compile adds one error report. -/
theorem foldl_installRule (rules : List RuleData) :
    ∀ acc : ListenerInstall,
      rules.foldl installRule acc =
        ⟨acc.perRule ++ (rules.filter (fun r => r.active && r.compiles)).map (fun r => r.id),
          acc.errors + (rules.filter (fun r => r.active && !r.compiles)).length,
          acc.catchAll⟩ := by
  induction rules with
  | nil => intro acc; simp
  | cons r rs ih =>
    intro acc
    by_cases ha : r.active
    · by_cases hc : r.compiles
      · simp [installRule, ha, hc, ih]
      · simp [installRule, ha, hc, ih]
        omega
    · simp [installRule, ha, ih]

/-- C5: for every rule list, a rule that fails to compile is skipped with an
error report, every other active rule still gets its per-rule hook (hooks
are exactly the compiling active rules, in order, so their count equals the
count of active rules that compile), and the catch-all blocking hook is
installed afterwards. -/
theorem addRuleListeners_isolates_bad_rules (rules : List RuleData) :
    (addRuleListeners (some rules)).perRule =
        (rules.filter (fun r => r.active && r.compiles)).map (fun r => r.id) ∧
      (addRuleListeners (some rules)).perRule.length =
        (rules.filter (fun r => r.active && r.compiles)).length ∧
      (addRuleListeners (some rules)).errors =
        (rules.filter (fun r => r.active && !r.compiles)).length ∧
      (addRuleListeners (some rules)).catchAll = true := by
  simp [addRuleListeners, foldl_installRule]

/-- C9: when the configuration's `rules` field is absent, the early return in
`addRuleListeners` installs no per-rule hook, reports no error, and skips the
catch-all hook too; `init` on such an enabled configuration leaves the
request hooks untouched while still notifying the enabled state. -/
theorem addRuleListeners_absent_rules_installs_nothing :
    (addRuleListeners none).perRule = [] ∧
      (addRuleListeners none).errors = 0 ∧
      (addRuleListeners none).catchAll = false ∧
      ∀ s : BackgroundState,
        (init ⟨false, none⟩ s).1.perRuleHooks = s.perRuleHooks ∧
          (init ⟨false, none⟩ s).1.catchAllHook = s.catchAllHook ∧
          (init ⟨false, none⟩ s).2 = Notification.enabledState := by
  refine ⟨rfl, rfl, rfl, fun s => ?_⟩
  simp [init, addRuleListeners]

/-- C8: initialising with `disabled = true` — at startup from the fresh
state, or via `initOnChange`'s teardown from any prior state — leaves zero
per-rule hooks, no catch-all hook, and an empty record store. -/
theorem init_disabled_no_hooks_empty_store (rules : Option (List RuleData))
    (s : BackgroundState) :
    ((init ⟨true, rules⟩ freshState).1.perRuleHooks = [] ∧
        (init ⟨true, rules⟩ freshState).1.catchAllHook = false ∧
        (init ⟨true, rules⟩ freshState).1.records = emptyStore ∧
        (init ⟨true, rules⟩ freshState).2 = Notification.disabledState) ∧
      ((initOnChange ⟨true, rules⟩ s).1.perRuleHooks = [] ∧
        (initOnChange ⟨true, rules⟩ s).1.catchAllHook = false ∧
        (initOnChange ⟨true, rules⟩ s).1.records = emptyStore) := by
  simp [init, initOnChange, freshState]

/-- C3: each of the reconciler's two passes consumes at most 5 records
whatever the sequence's length, and on a 10-record sequence (oldest first)
whose only record with target equal to the committed URL `"C"` sits at
position 7 from the newest end, pass 1 adopts no anchor. -/
theorem passes_inspect_at_most_five :
    (∀ (isServerRedirect : Bool) (url : String) (recs : List Record)
        (last : Option Record),
        recs.length - 5 ≤ (pass1 isServerRedirect url 5 recs last).2.2.length) ∧
      (∀ (recs : List Record) (last : Option Record) (keep : List Record),
        recs.length - 5 ≤ (pass2 5 recs last keep).2.length) ∧
      (pass1 false "C" 5
          ([⟨1, "t", "u9", some "x9", 9, 9⟩, ⟨1, "t", "u8", some "x8", 8, 8⟩,
            ⟨1, "t", "u7", some "x7", 7, 7⟩, ⟨1, "t", "u6", some "C", 6, 6⟩,
            ⟨1, "t", "u5", some "x5", 5, 5⟩, ⟨1, "t", "u4", some "x4", 4, 4⟩,
            ⟨1, "t", "u3", some "x3", 3, 3⟩, ⟨1, "t", "u2", some "x2", 2, 2⟩,
            ⟨1, "t", "u1", some "x1", 1, 1⟩, ⟨1, "t", "u0", some "x0", 0, 0⟩] :
            List Record).reverse none).1 = none := by
  refine ⟨?_, ?_, by decide⟩
  · intro isServerRedirect url recs last
    have := pass1_rest_length isServerRedirect url 5 recs last
    omega
  · intro recs last keep
    have := pass2_rest_length 5 recs last keep
    omega

/-- C10: whenever the reconciler reports a non-empty kept chain (a notify
with count `c`), the tab's new sequence has exactly `c` records and
`c ≤ 6`: pass 1 contributes at most the anchor and pass 2 at most 5 more. -/
theorem resetRecords_keep_at_most_six (store : Store) (d : NavDetails)
    (t ru c : Nat)
    (h : (resetRecords store d).2 = some (Notification.notify t ru c)) :
    c ≤ 6 ∧ ∃ seq, (resetRecords store d).1 t = some seq ∧ seq.length = c := by
  by_cases hg : d.frameId = 0 ∧ (store d.tabId).isSome = true
  · have hb := reconcile_length_le (d.transitionQualifiers.contains "server_redirect")
      d.url ((store d.tabId).getD [])
    rcases hk : reconcile (d.transitionQualifiers.contains "server_redirect")
        d.url ((store d.tabId).getD []) with _ | ⟨k, ks⟩
    · rw [resetRecords_clear_eq store d hg.1 hg.2 hk] at h
      simp at h
    · rw [hk] at hb
      rw [resetRecords_keep_eq store d k ks hg.1 hg.2 hk] at h ⊢
      simp only [Option.some.injEq, Notification.notify.injEq] at h
      obtain ⟨h1, _, h3⟩ := h
      subst h1 h3
      exact ⟨hb, ⟨k :: ks, by simp, rfl⟩⟩
  · rw [resetRecords, if_neg hg] at h
    simp at h

/-- C2: on a sequence `[{url:A,target:B}, {url:B,target:C}]` and a top-level
commit to `C` that is not a server redirect, the reconciler keeps both
records in order and notifies with the newest kept record's rule and
count 2.  (`B` non-empty: the pass-2 guard `record.target &&` requires a
truthy target.) -/
theorem resetRecords_keeps_two_hop_chain (A B C ty1 ty2 : String)
    (t ts1 ts2 ru1 ru2 : Nat) (qs : List String) (store : Store)
    (hB : B ≠ "") (hq : qs.contains "server_redirect" = false)
    (hst : store t = some [⟨t, ty1, A, some B, ts1, ru1⟩,
      ⟨t, ty2, B, some C, ts2, ru2⟩]) :
    (resetRecords store ⟨t, 0, C, qs⟩).1 t =
        some [⟨t, ty1, A, some B, ts1, ru1⟩, ⟨t, ty2, B, some C, ts2, ru2⟩] ∧
      (resetRecords store ⟨t, 0, C, qs⟩).2 =
        some (Notification.notify t ru2 2) := by
  have hs : (store t).isSome = true := by rw [hst]; rfl
  have hk : reconcile (qs.contains "server_redirect") C ((store t).getD []) =
      ⟨t, ty1, A, some B, ts1, ru1⟩ :: [⟨t, ty2, B, some C, ts2, ru2⟩] := by
    rw [hst, hq]
    simp [reconcile, pass1, pass2, pass1Match, pass2Match, targetTruthy, hB]
  rw [resetRecords_keep_eq store ⟨t, 0, C, qs⟩ _ _ rfl hs hk]
  simp

/-- Witness for C2 at `A = "A"`, `B = "B"`, `C = "C"`, tab 1. -/
theorem resetRecords_keeps_two_hop_chain_witness :
    (resetRecords
          (fun x => if x = 1 then
            some [⟨1, "main_frame", "A", some "B", 0, 20⟩,
              ⟨1, "main_frame", "B", some "C", 1, 21⟩] else none)
          ⟨1, 0, "C", []⟩).1 1 =
        some [⟨1, "main_frame", "A", some "B", 0, 20⟩,
          ⟨1, "main_frame", "B", some "C", 1, 21⟩] ∧
      (resetRecords
          (fun x => if x = 1 then
            some [⟨1, "main_frame", "A", some "B", 0, 20⟩,
              ⟨1, "main_frame", "B", some "C", 1, 21⟩] else none)
          ⟨1, 0, "C", []⟩).2 = some (Notification.notify 1 21 2) :=
  resetRecords_keeps_two_hop_chain "A" "B" "C" "main_frame" "main_frame"
    1 0 1 20 21 [] _ (by decide) (by decide) (by simp)

/-- C4: on a sequence `[{url:A,target:B}]` and a server-redirect commit to
`C ≠ B`, pass 1 still adopts the record (non-empty target plus
`isServerRedirect`), the sequence stays `[{A→B}]` and the notify count
is 1. -/
theorem resetRecords_server_redirect_anchor (A B C ty : String)
    (t ts ru : Nat) (qs : List String) (store : Store)
    (hB : B ≠ "") (hCB : C ≠ B)
    (hq : qs.contains "server_redirect" = true)
    (hst : store t = some [⟨t, ty, A, some B, ts, ru⟩]) :
    (resetRecords store ⟨t, 0, C, qs⟩).1 t = some [⟨t, ty, A, some B, ts, ru⟩] ∧
      (resetRecords store ⟨t, 0, C, qs⟩).2 =
        some (Notification.notify t ru 1) := by
  have hs : (store t).isSome = true := by rw [hst]; rfl
  have hk : reconcile (qs.contains "server_redirect") C ((store t).getD []) =
      ⟨t, ty, A, some B, ts, ru⟩ :: [] := by
    rw [hst, hq]
    simp [reconcile, pass1, pass2, pass1Match, pass2Match, targetTruthy, hB]
  rw [resetRecords_keep_eq store ⟨t, 0, C, qs⟩ _ _ rfl hs hk]
  simp

/-- Witness for C4 at `A = "A"`, `B = "B"`, `C = "C"`, tab 1. -/
theorem resetRecords_server_redirect_anchor_witness :
    (resetRecords
          (fun x => if x = 1 then
            some [⟨1, "main_frame", "A", some "B", 0, 20⟩] else none)
          ⟨1, 0, "C", ["server_redirect"]⟩).1 1 =
        some [⟨1, "main_frame", "A", some "B", 0, 20⟩] ∧
      (resetRecords
          (fun x => if x = 1 then
            some [⟨1, "main_frame", "A", some "B", 0, 20⟩] else none)
          ⟨1, 0, "C", ["server_redirect"]⟩).2 =
        some (Notification.notify 1 20 1) :=
  resetRecords_server_redirect_anchor "A" "B" "C" "main_frame"
    1 0 20 ["server_redirect"] _ (by decide) (by decide) (by decide) (by simp)

/-- C1 counterexample: on a 6-record sequence for tab 1 where no record
within the 5-record pass-1 window matches the non-server-redirect commit to
`"D"` (pass 1 adopts no anchor), the oldest record's target equals the url
of the last record pass 1 scanned, so pass 2 adopts it: the sequence is
replaced by that one record and a notify — not a removal and a clear — is
issued, contradicting the claim's universal part. -/
theorem resetRecords_no_anchor_still_keeps :
    (pass1 false "D" 5
        ([⟨1, "t", "u0", some "v1", 0, 10⟩, ⟨1, "t", "v1", some "w1", 1, 11⟩,
          ⟨1, "t", "v2", some "w2", 2, 12⟩, ⟨1, "t", "v3", some "w3", 3, 13⟩,
          ⟨1, "t", "v4", some "w4", 4, 14⟩, ⟨1, "t", "v5", some "w5", 5, 15⟩] :
          List Record).reverse none).1 = none ∧
      (resetRecords
          (fun x => if x = 1 then
            some [⟨1, "t", "u0", some "v1", 0, 10⟩, ⟨1, "t", "v1", some "w1", 1, 11⟩,
              ⟨1, "t", "v2", some "w2", 2, 12⟩, ⟨1, "t", "v3", some "w3", 3, 13⟩,
              ⟨1, "t", "v4", some "w4", 4, 14⟩, ⟨1, "t", "v5", some "w5", 5, 15⟩]
            else none)
          ⟨1, 0, "D", []⟩).1 1 = some [⟨1, "t", "u0", some "v1", 0, 10⟩] ∧
      (resetRecords
          (fun x => if x = 1 then
            some [⟨1, "t", "u0", some "v1", 0, 10⟩, ⟨1, "t", "v1", some "w1", 1, 11⟩,
              ⟨1, "t", "v2", some "w2", 2, 12⟩, ⟨1, "t", "v3", some "w3", 3, 13⟩,
              ⟨1, "t", "v4", some "w4", 4, 14⟩, ⟨1, "t", "v5", some "w5", 5, 15⟩]
            else none)
          ⟨1, 0, "D", []⟩).2 = some (Notification.notify 1 10 1) :=
  ⟨by decide, by decide, by decide⟩

/-- C1 amended: if pass 1 adopts no anchor *and* pass 2 adopts no chain
member either (the kept set stays empty), then the tab's entire sequence is
removed and the notifier's clear is called for that tab. -/
theorem resetRecords_no_anchor_no_chain_clears (store : Store) (d : NavDetails)
    (seq : List Record)
    (hf : d.frameId = 0) (hst : store d.tabId = some seq)
    (hanchor : (pass1 (d.transitionQualifiers.contains "server_redirect")
      d.url 5 seq.reverse none).1 = none)
    (hkeep : reconcile (d.transitionQualifiers.contains "server_redirect")
      d.url seq = []) :
    (resetRecords store d).1 d.tabId = none ∧
      (resetRecords store d).2 = some (Notification.clear d.tabId) := by
  have hs : (store d.tabId).isSome = true := by rw [hst]; rfl
  have hk : reconcile (d.transitionQualifiers.contains "server_redirect")
      d.url ((store d.tabId).getD []) = [] := by
    rw [hst]
    exact hkeep
  rw [resetRecords_clear_eq store d hf hs hk]
  simp [removeRecords]

/-- Witness for the amended C1 at the claim's own example: the sequence
`[{A→B}, {B→C}]` and a non-server-redirect commit to `"D"` are cleared. -/
theorem resetRecords_no_anchor_no_chain_clears_witness :
    (resetRecords
          (fun x => if x = 1 then
            some [⟨1, "main_frame", "A", some "B", 0, 20⟩,
              ⟨1, "main_frame", "B", some "C", 1, 21⟩] else none)
          ⟨1, 0, "D", []⟩).1 1 = none ∧
      (resetRecords
          (fun x => if x = 1 then
            some [⟨1, "main_frame", "A", some "B", 0, 20⟩,
              ⟨1, "main_frame", "B", some "C", 1, 21⟩] else none)
          ⟨1, 0, "D", []⟩).2 = some (Notification.clear 1) :=
  resetRecords_no_anchor_no_chain_clears _ ⟨1, 0, "D", []⟩
    [⟨1, "main_frame", "A", some "B", 0, 20⟩, ⟨1, "main_frame", "B", some "C", 1, 21⟩]
    rfl (by simp) (by decide) (by decide)

/-- Witness for C10 at the two-hop chain example: the notify with count 2 is
reflected by a stored sequence of length 2, within the bound of 6. -/
theorem resetRecords_keep_at_most_six_witness :
    2 ≤ 6 ∧ ∃ seq,
      (resetRecords
          (fun x => if x = 1 then
            some [⟨1, "main_frame", "A", some "B", 0, 20⟩,
              ⟨1, "main_frame", "B", some "C", 1, 21⟩] else none)
          ⟨1, 0, "C", []⟩).1 1 = some seq ∧ seq.length = 2 :=
  resetRecords_keep_at_most_six _ ⟨1, 0, "C", []⟩ 1 21 2 (by decide)

/-- Appending records for tab `t` onto an existing sequence `cur` extends it
in order, and each call returns the running length. -/
theorem appendAll_from (t : Nat) :
    ∀ (rs : List Record) (store : Store) (cur : List Record),
      store t = some cur → (∀ r ∈ rs, r.tabId = t) →
      (appendAll store rs).2 t = some (cur ++ rs) ∧
        (appendAll store rs).1 = List.range' (cur.length + 1) rs.length := by
  intro rs
  induction rs with
  | nil =>
    intro store cur h _
    simp [appendAll, h]
  | cons r rs ih =>
    intro store cur h hall
    have ht : r.tabId = t := hall r (List.mem_cons_self r rs)
    have hstep : (addRecord store r).2 t = some (cur ++ [r]) := by
      simp [addRecord, ht, h]
    have hcount : (addRecord store r).1 = cur.length + 1 := by
      simp [addRecord, ht, h]
    have hrest : ∀ r' ∈ rs, r'.tabId = t :=
      fun r' hr' => hall r' (List.mem_cons_of_mem r hr')
    have hih := ih (addRecord store r).2 (cur ++ [r]) hstep hrest
    constructor
    · simp only [appendAll]
      rw [hih.1]
      simp
    · simp only [appendAll]
      rw [List.length_cons, List.range'_succ, hcount, hih.2]
      simp

/-- C6: appending `N ≥ 1` records for a tab with no existing sequence yields
a sequence of exactly those records in append order; each `addRecord` call
returns the new length (`1, 2, …, N`), the first call creating the sequence
lazily. -/
theorem addRecord_appends_in_order (t : Nat) (rs : List Record) (store : Store)
    (h0 : store t = none) (hall : ∀ r ∈ rs, r.tabId = t) (hne : rs ≠ []) :
    (appendAll store rs).2 t = some rs ∧
      (appendAll store rs).1 = List.range' 1 rs.length := by
  cases rs with
  | nil => exact absurd rfl hne
  | cons r rs =>
    have ht : r.tabId = t := hall r (List.mem_cons_self r rs)
    have hstep : (addRecord store r).2 t = some [r] := by
      simp [addRecord, ht, h0]
    have hcount : (addRecord store r).1 = 1 := by
      simp [addRecord, ht, h0]
    have hrest : ∀ r' ∈ rs, r'.tabId = t :=
      fun r' hr' => hall r' (List.mem_cons_of_mem r hr')
    have hih := appendAll_from t rs (addRecord store r).2 [r] hstep hrest
    constructor
    · simp only [appendAll]
      rw [hih.1]
      simp
    · simp only [appendAll]
      rw [List.length_cons, List.range'_succ, hcount, hih.2]
      simp

/-- Witness for C6: two records appended for tab 1 from the empty store. -/
theorem addRecord_appends_in_order_witness :
    (appendAll emptyStore
        [⟨1, "script", "u1", none, 0, 5⟩, ⟨1, "image", "u2", some "v", 1, 6⟩]).2 1 =
      some [⟨1, "script", "u1", none, 0, 5⟩, ⟨1, "image", "u2", some "v", 1, 6⟩] ∧
    (appendAll emptyStore
        [⟨1, "script", "u1", none, 0, 5⟩, ⟨1, "image", "u2", some "v", 1, 6⟩]).1 =
      List.range' 1 2 :=
  addRecord_appends_in_order 1
    [⟨1, "script", "u1", none, 0, 5⟩, ⟨1, "image", "u2", some "v", 1, 6⟩]
    emptyStore rfl (by decide) (by decide)

theorem appendsFor_cons (t : Nat) (op : Op) (ops : List Op) :
    appendsFor t (op :: ops) = appendsFor t [op] ++ appendsFor t ops := by
  cases op with
  | append r =>
    by_cases h : r.tabId = t
    · simp [appendsFor, h]
    · simp [appendsFor, h]
  | navCommit d => simp [appendsFor]
  | tabRemoved u => simp [appendsFor]

/-- One event keeps every tab sequence a sublist of the extended append
history: `addRecord` appends, `resetRecords` replaces a sequence by a
sublist of itself (or removes it), `removeRecords` removes. -/
theorem applyOp_sublist (t : Nat) (store : Store) (op : Op) (hist : List Record)
    (hinv : ∀ s0, store t = some s0 → s0 <+ hist) :
    ∀ s1, applyOp store op t = some s1 → s1 <+ hist ++ appendsFor t [op] := by
  intro s1 h1
  cases op with
  | append r =>
    by_cases ht : r.tabId = t
    · have he : applyOp store (.append r) t = some ((store t).getD [] ++ [r]) := by
        simp [applyOp, addRecord, ht]
      rw [he] at h1
      obtain rfl : (store t).getD [] ++ [r] = s1 := by
        exact Option.some.inj h1
      have happ : appendsFor t [Op.append r] = [r] := by
        simp [appendsFor, ht]
      rw [happ]
      have hbase : (store t).getD [] <+ hist := by
        cases hs : store t with
        | none => simp
        | some s0 => simpa using hinv s0 hs
      exact hbase.append (List.Sublist.refl [r])
    · have ht' : ¬ t = r.tabId := fun h => ht h.symm
      have he : applyOp store (.append r) t = store t := by
        simp [applyOp, addRecord, ht']
      rw [he] at h1
      have happ : appendsFor t [Op.append r] = [] := by
        simp [appendsFor, ht]
      rw [happ, List.append_nil]
      exact hinv s1 h1
  | navCommit d =>
    have happ : appendsFor t [Op.navCommit d] = [] := by simp [appendsFor]
    rw [happ, List.append_nil]
    by_cases hg : d.frameId = 0 ∧ (store d.tabId).isSome = true
    · rcases hk : reconcile (d.transitionQualifiers.contains "server_redirect")
          d.url ((store d.tabId).getD []) with _ | ⟨k, ks⟩
      · rw [show applyOp store (.navCommit d) = (resetRecords store d).1 from rfl,
          resetRecords_clear_eq store d hg.1 hg.2 hk] at h1
        by_cases htd : t = d.tabId
        · simp [removeRecords, htd] at h1
        · simp only [removeRecords, if_neg htd] at h1
          exact hinv s1 h1
      · rw [show applyOp store (.navCommit d) = (resetRecords store d).1 from rfl,
          resetRecords_keep_eq store d k ks hg.1 hg.2 hk] at h1
        by_cases htd : t = d.tabId
        · simp only [htd, if_pos, Option.some.injEq] at h1
          obtain ⟨s0, hs0⟩ := Option.isSome_iff_exists.mp hg.2
          have hsub : k :: ks <+ s0 := by
            have := reconcile_sublist (d.transitionQualifiers.contains "server_redirect")
              d.url ((store d.tabId).getD [])
            rw [hk, hs0] at this
            simpa using this
          rw [← h1]
          exact hsub.trans (hinv s0 (htd ▸ hs0))
        · simp only [if_neg htd] at h1
          exact hinv s1 h1
    · rw [show applyOp store (.navCommit d) = (resetRecords store d).1 from rfl] at h1
      simp only [resetRecords, if_neg hg] at h1
      exact hinv s1 h1
  | tabRemoved u =>
    have happ : appendsFor t [Op.tabRemoved u] = [] := by simp [appendsFor]
    rw [happ, List.append_nil]
    by_cases htu : t = u
    · simp [applyOp, removeRecords, htu] at h1
    · simp only [applyOp, removeRecords, if_neg htu] at h1
      exact hinv s1 h1

/-- After any event sequence, every tab sequence is a sublist of the
original history extended by the records appended for that tab. -/
theorem runOps_sublist (t : Nat) :
    ∀ (ops : List Op) (store : Store) (hist : List Record),
      (∀ s0, store t = some s0 → s0 <+ hist) →
      ∀ seq, runOps store ops t = some seq → seq <+ hist ++ appendsFor t ops := by
  intro ops
  induction ops with
  | nil =>
    intro store hist hinv seq hseq
    simp only [runOps, List.foldl_nil] at hseq
    simpa [appendsFor] using hinv seq hseq
  | cons op ops ih =>
    intro store hist hinv seq hseq
    have h1 := ih (applyOp store op) (hist ++ appendsFor t [op])
      (applyOp_sublist t store op hist hinv) seq
      (by simpa [runOps] using hseq)
    rw [appendsFor_cons, ← List.append_assoc]
    exact h1

/-- C7 counterexample: the store performs no duplicate check, so appending
the same record twice reaches a state whose tab-1 sequence holds two records
with identical `(url, target, timestamp)`. -/
theorem store_duplicate_key_reachable :
    runOps emptyStore
        [Op.append ⟨1, "t", "u", none, 0, 3⟩, Op.append ⟨1, "t", "u", none, 0, 3⟩] 1 =
      some [⟨1, "t", "u", none, 0, 3⟩, ⟨1, "t", "u", none, 0, 3⟩] ∧
    ¬ keyNodup [⟨1, "t", "u", none, 0, 3⟩, ⟨1, "t", "u", none, 0, 3⟩] := by
  constructor
  · decide
  · simp [keyNodup, recordKey]

/-- C7 amended: the invariant holds for every tab whose appended records
carry pairwise-distinct `(url, target, timestamp)` triples — under any
sequence of append, reconciliation and removal events from the empty store,
that tab's sequence never holds two records with an identical triple.
(Without that proviso the claim fails: `addRecord` never deduplicates.) -/
theorem store_key_nodup_of_distinct_appends (t : Nat) (ops : List Op)
    (seq : List Record) (hdist : keyNodup (appendsFor t ops))
    (hseq : runOps emptyStore ops t = some seq) :
    keyNodup seq := by
  have hsub : seq <+ [] ++ appendsFor t ops :=
    runOps_sublist t ops emptyStore []
      (by intro s0 h0; simp [emptyStore] at h0) seq hseq
  rw [List.nil_append] at hsub
  unfold keyNodup at hdist ⊢
  exact List.Pairwise.sublist hsub hdist

/-- Witness for the amended C7: two appends with distinct timestamps and a
navigation commit leave a duplicate-free sequence. -/
theorem store_key_nodup_of_distinct_appends_witness :
    keyNodup [⟨1, "t", "A", some "B", 0, 5⟩, ⟨1, "t", "B", some "C", 1, 6⟩] :=
  store_key_nodup_of_distinct_appends 1
    [Op.append ⟨1, "t", "A", some "B", 0, 5⟩, Op.append ⟨1, "t", "B", some "C", 1, 6⟩]
    [⟨1, "t", "A", some "B", 0, 5⟩, ⟨1, "t", "B", some "C", 1, 6⟩]
    (by simp [keyNodup, recordKey, appendsFor]) (by decide)

end RequestControl
